import Mathlib

/-!
Shallow embedding of the Black-Scholes option pricing engine of
`src/js/blackscholes.js` over the real numbers, together with proofs of the
behavioural claims made about it.  JavaScript `Math.exp`, `Math.log`,
`Math.sqrt`, `Math.pow` and `Math.abs` are embedded as their exact real
counterparts `Real.exp`, `Real.log`, `Real.sqrt`, `(· ^ ·)` and `|·|`;
numeric literals of the source are exact rationals.
-/

namespace BS

noncomputable section

open Real

/-- `pdf` of `blackscholes.js` line 4:
`Math.exp(-0.5 * x * x) / Math.sqrt(2 * Math.PI)`. -/
def pdf (x : ℝ) : ℝ := Real.exp (-0.5 * x * x) / Real.sqrt (2 * Real.pi)

/-- Coefficient `a1` of the source's `cdf`. -/
def a1 : ℝ := 0.254829592

/-- Coefficient `a2` of the source's `cdf`. -/
def a2 : ℝ := -0.284496736

/-- Coefficient `a3` of the source's `cdf`. -/
def a3 : ℝ := 1.421413741

/-- Coefficient `a4` of the source's `cdf`. -/
def a4 : ℝ := -1.453152027

/-- Coefficient `a5` of the source's `cdf`. -/
def a5 : ℝ := 1.061405429

/-- Coefficient `p` of the source's `cdf`. -/
def p : ℝ := 0.3275911

/-- The polynomial sub-expression
`(((((a5 * t + a4) * t) + a3) * t + a2) * t + a1) * t` of `cdf` line 21. -/
def Ppoly (t : ℝ) : ℝ := (((((a5 * t + a4) * t) + a3) * t + a2) * t + a1) * t

/-- `cdf` of `blackscholes.js` lines 9-24.  The source reassigns
`x = Math.abs(x)` after capturing the sign; here `ax` is that reassigned
value. -/
def cdf (x : ℝ) : ℝ :=
  let sgn : ℝ := if 0 ≤ x then 1 else -1
  let ax : ℝ := |x|
  let t : ℝ := 1 / (1 + p * ax)
  let y : ℝ := 1 - Ppoly t * Real.exp (-(ax * ax))
  0.5 * (1 + sgn * y)

/-- The five market parameters held by the `BlackScholes` class
(constructor lines 28-35). -/
structure BlackScholes where
  S : ℝ
  K : ℝ
  r : ℝ
  T : ℝ
  sigma : ℝ

namespace BlackScholes

/-- `this.d1` as computed by `calculateD1D2` (line 38). -/
def d1 (b : BlackScholes) : ℝ :=
  (Real.log (b.S / b.K) + (b.r + 0.5 * b.sigma ^ 2) * b.T) /
    (b.sigma * Real.sqrt b.T)

/-- `this.d2` as computed by `calculateD1D2` (line 39). -/
def d2 (b : BlackScholes) : ℝ := b.d1 - b.sigma * Real.sqrt b.T

/-- `callPrice()` (line 44). -/
def callPrice (b : BlackScholes) : ℝ :=
  b.S * cdf b.d1 - b.K * Real.exp (-b.r * b.T) * cdf b.d2

/-- `putPrice()` (line 48). -/
def putPrice (b : BlackScholes) : ℝ :=
  b.K * Real.exp (-b.r * b.T) * cdf (-b.d2) - b.S * cdf (-b.d1)

/-- `deltaCall()` (line 52). -/
def deltaCall (b : BlackScholes) : ℝ := cdf b.d1

/-- `deltaPut()` (line 53). -/
def deltaPut (b : BlackScholes) : ℝ := cdf b.d1 - 1

/-- `gamma()` (line 56). -/
def gamma (b : BlackScholes) : ℝ :=
  pdf b.d1 / (b.S * b.sigma * Real.sqrt b.T)

/-- `vega()` (line 60). -/
def vega (b : BlackScholes) : ℝ :=
  b.S * pdf b.d1 * Real.sqrt b.T / 100

/-- `thetaCall()` (lines 63-67). -/
def thetaCall (b : BlackScholes) : ℝ :=
  let t1 : ℝ := -(b.S * pdf b.d1 * b.sigma) / (2 * Real.sqrt b.T)
  let t2 : ℝ := -b.r * b.K * Real.exp (-b.r * b.T) * cdf b.d2
  (t1 + t2) / 365

/-- `rhoCall()` (line 70). -/
def rhoCall (b : BlackScholes) : ℝ :=
  b.K * b.T * Real.exp (-b.r * b.T) * cdf b.d2 / 100

end BlackScholes

/-- Result record of `generateSurfaceData` (line 170): `{x, y, z}`. -/
structure SurfaceData where
  x : List ℝ
  y : List ℝ
  z : List (List ℝ)

/-- `generateSurfaceData` of `blackscholes.js` lines 134-171.  The two
nested `for` loops (`i = 0..stepsT`, `j = 0..stepsS`, both inclusive) that
push onto `x_data`, `y_data` and `z_data` are embedded as maps over
`List.range 31`; `x_data` is populated on the first pass `i = 0`, with the
same values `minS + j * stepSizeS` used at every row. -/
def generateSurfaceData (currentS K r currentT sigma : ℝ) : SurfaceData :=
  let rangePct : ℝ := 0.50
  let minS : ℝ := currentS * (1 - rangePct)
  let maxS : ℝ := currentS * (1 + rangePct)
  let stepsS : ℕ := 30
  let stepSizeS : ℝ := (maxS - minS) / stepsS
  let maxT : ℝ := max (currentT * 1.5) 1
  let stepsT : ℕ := 30
  let stepSizeT : ℝ := maxT / stepsT
  let x_data : List ℝ :=
    (List.range (stepsS + 1)).map fun j : ℕ => minS + (j : ℝ) * stepSizeS
  let y_data : List ℝ :=
    (List.range (stepsT + 1)).map fun i : ℕ => 0.01 + (i : ℝ) * stepSizeT
  let z_data : List (List ℝ) :=
    (List.range (stepsT + 1)).map fun i : ℕ =>
      (List.range (stepsS + 1)).map fun j : ℕ =>
        (BlackScholes.mk (minS + (j : ℝ) * stepSizeS) K r
          (0.01 + (i : ℝ) * stepSizeT) sigma).gamma
  ⟨x_data, y_data, z_data⟩

/-- Formal derivative of `Ppoly`, used to establish its monotonicity. -/
def dPpoly (t : ℝ) : ℝ :=
  5 * a5 * t ^ 4 + 4 * a4 * t ^ 3 + 3 * a3 * t ^ 2 + 2 * a2 * t + a1

/-- The value `y` computed inside `cdf` (line 21 of the source) as a
function of the non-negative argument `u = |x|`. -/
def yfun (u : ℝ) : ℝ :=
  1 - Ppoly (1 / (1 + p * u)) * Real.exp (-(u * u))

/-- The true standard normal cumulative distribution function: the Lebesgue
integral of the source's `pdf` over `(-∞, x]`.  Reference definition used to
check the accuracy the spec asserts for `cdf`. -/
def Phi (x : ℝ) : ℝ := ∫ t in Set.Iic x, pdf t

/-- The ten-field PricingResult aggregate of spec section 3. -/
structure PricingResult where
  d1 : ℝ
  d2 : ℝ
  callPrice : ℝ
  putPrice : ℝ
  deltaCall : ℝ
  deltaPut : ℝ
  gamma : ℝ
  vega : ℝ
  thetaCall : ℝ
  rhoCall : ℝ

/-- Division that signals (with `none`) instead of producing a non-finite
value when the denominator is zero.  Used to express the safety claim that
no division by zero occurs during an evaluation. -/
def safeDiv (a b : ℝ) : Option ℝ := if b = 0 then none else some (a / b)

/-- Logarithm that signals (with `none`) on a non-positive argument. -/
def safeLog (a : ℝ) : Option ℝ := if a ≤ 0 then none else some (Real.log a)

/-- `pdf` with its division guarded. -/
def pdfChecked (x : ℝ) : Option ℝ :=
  safeDiv (Real.exp (-0.5 * x * x)) (Real.sqrt (2 * Real.pi))

/-- `cdf` with its division guarded. -/
def cdfChecked (x : ℝ) : Option ℝ := do
  let sgn : ℝ := if 0 ≤ x then 1 else -1
  let ax : ℝ := |x|
  let t ← safeDiv 1 (1 + p * ax)
  let y : ℝ := 1 - Ppoly t * Real.exp (-(ax * ax))
  pure (0.5 * (1 + sgn * y))

/-- One full point evaluation of the engine (constructor plus all ten
fields of spec section 3) with every division and logarithm guarded;
returns `none` exactly when some step would divide by zero or take the
logarithm of a non-positive argument. -/
def evalChecked (S K r T sigma : ℝ) : Option PricingResult := do
  let q ← safeDiv S K
  let l ← safeLog q
  let d1 ← safeDiv (l + (r + 0.5 * sigma ^ 2) * T) (sigma * Real.sqrt T)
  let d2 : ℝ := d1 - sigma * Real.sqrt T
  let nd1 ← cdfChecked d1
  let nd2 ← cdfChecked d2
  let nmd1 ← cdfChecked (-d1)
  let nmd2 ← cdfChecked (-d2)
  let phi1 ← pdfChecked d1
  let gam ← safeDiv phi1 (S * sigma * Real.sqrt T)
  let veg ← safeDiv (S * phi1 * Real.sqrt T) 100
  let t1 ← safeDiv (-(S * phi1 * sigma)) (2 * Real.sqrt T)
  let t2 : ℝ := -r * K * Real.exp (-r * T) * nd2
  let th ← safeDiv (t1 + t2) 365
  let rho ← safeDiv (K * T * Real.exp (-r * T) * nd2) 100
  pure ⟨d1, d2,
    S * nd1 - K * Real.exp (-r * T) * nd2,
    K * Real.exp (-r * T) * nmd2 - S * nmd1,
    nd1, nd1 - 1, gam, veg, th, rho⟩

/-- Written from the spec's words (section 4.1): `d1 = (ln(S/K) +
(r + 0.5·sigma^2)·T) / (sigma·sqrt T)`.  Second definition for the
refinement claim C3, to be compared with the source-derived engine. -/
def specD1 (S K r T sigma : ℝ) : ℝ :=
  (Real.log (S / K) + (r + 0.5 * sigma ^ 2) * T) / (sigma * Real.sqrt T)

/-- Spec section 4.1: `d2 = d1 - sigma·sqrt T`. -/
def specD2 (S K r T sigma : ℝ) : ℝ :=
  specD1 S K r T sigma - sigma * Real.sqrt T

/-- Spec pricing table: `callPrice = S·CDF(d1) - K·exp(-r·T)·CDF(d2)`. -/
def specCallPrice (S K r T sigma : ℝ) : ℝ :=
  S * cdf (specD1 S K r T sigma) -
    K * Real.exp (-(r * T)) * cdf (specD2 S K r T sigma)

/-- Spec pricing table: `putPrice = K·exp(-r·T)·CDF(-d2) - S·CDF(-d1)`. -/
def specPutPrice (S K r T sigma : ℝ) : ℝ :=
  K * Real.exp (-(r * T)) * cdf (-specD2 S K r T sigma) -
    S * cdf (-specD1 S K r T sigma)

/-- Spec pricing table: `deltaCall = CDF(d1)`. -/
def specDeltaCall (S K r T sigma : ℝ) : ℝ := cdf (specD1 S K r T sigma)

/-- Spec pricing table: `deltaPut = CDF(d1) - 1`. -/
def specDeltaPut (S K r T sigma : ℝ) : ℝ := cdf (specD1 S K r T sigma) - 1

/-- Spec pricing table: `gamma = pdf(d1) / (S·sigma·sqrt T)`. -/
def specGamma (S K r T sigma : ℝ) : ℝ :=
  pdf (specD1 S K r T sigma) / (S * sigma * Real.sqrt T)

/-- Spec pricing table: `vega = S·pdf(d1)·sqrt T / 100`. -/
def specVega (S K r T sigma : ℝ) : ℝ :=
  S * pdf (specD1 S K r T sigma) * Real.sqrt T / 100

/-- Spec pricing table:
`thetaCall = (-S·pdf(d1)·sigma/(2·sqrt T) - r·K·exp(-r·T)·CDF(d2)) / 365`. -/
def specThetaCall (S K r T sigma : ℝ) : ℝ :=
  (-(S * pdf (specD1 S K r T sigma) * sigma) / (2 * Real.sqrt T) -
    r * K * Real.exp (-(r * T)) * cdf (specD2 S K r T sigma)) / 365

/-- Spec pricing table: `rhoCall = K·T·exp(-r·T)·CDF(d2) / 100`. -/
def specRhoCall (S K r T sigma : ℝ) : ℝ :=
  K * T * Real.exp (-(r * T)) * cdf (specD2 S K r T sigma) / 100

end

section PpolyFacts

lemma Ppoly_eq (t : ℝ) :
    Ppoly t = a5 * t ^ 5 + a4 * t ^ 4 + a3 * t ^ 3 + a2 * t ^ 2 + a1 * t := by
  unfold Ppoly; ring

lemma hasDerivAt_Ppoly (t : ℝ) : HasDerivAt Ppoly (dPpoly t) t := by
  have hfun : Ppoly = fun s : ℝ =>
      a5 * s ^ 5 + a4 * s ^ 4 + a3 * s ^ 3 + a2 * s ^ 2 + a1 * s := by
    funext s; exact Ppoly_eq s
  rw [hfun]
  have h := (((((hasDerivAt_pow 5 t).const_mul a5).add
      ((hasDerivAt_pow 4 t).const_mul a4)).add
      ((hasDerivAt_pow 3 t).const_mul a3)).add
      ((hasDerivAt_pow 2 t).const_mul a2)).add
      ((hasDerivAt_id' t).const_mul a1)
  convert h using 1
  unfold dPpoly
  push_cast
  ring

lemma dPpoly_pos (t : ℝ) : 0 < dPpoly t := by
  unfold dPpoly a1 a2 a3 a4 a5
  rcases le_or_lt t 0 with h | h
  · have h3 : 0 ≤ -t ^ 3 := by nlinarith [sq_nonneg t]
    nlinarith [sq_nonneg t, sq_nonneg (t * t)]
  · nlinarith [sq_nonneg (t * t - 0.5476 * t), sq_nonneg (t - 0.1064),
      sq_nonneg t, mul_pos h h, sq_nonneg (t * t)]

lemma strictMono_Ppoly : StrictMono Ppoly := by
  apply strictMono_of_deriv_pos
  intro t
  rw [(hasDerivAt_Ppoly t).deriv]
  exact dPpoly_pos t

lemma Ppoly_zero : Ppoly 0 = 0 := by unfold Ppoly; ring

lemma Ppoly_one : Ppoly 1 = 0.999999999 := by
  unfold Ppoly a1 a2 a3 a4 a5; norm_num

lemma Ppoly_nonneg {t : ℝ} (ht : 0 ≤ t) : 0 ≤ Ppoly t := by
  have h := strictMono_Ppoly.monotone ht
  rwa [Ppoly_zero] at h

lemma Ppoly_le_of_le_one {t : ℝ} (ht : t ≤ 1) : Ppoly t ≤ 0.999999999 := by
  have h := strictMono_Ppoly.monotone ht
  rwa [Ppoly_one] at h

end PpolyFacts

section CdfFacts

lemma one_add_p_mul_pos {u : ℝ} (hu : 0 ≤ u) : 0 < 1 + p * u := by
  unfold p; nlinarith

lemma tval_pos {u : ℝ} (hu : 0 ≤ u) : 0 < 1 / (1 + p * u) :=
  div_pos one_pos (one_add_p_mul_pos hu)

lemma tval_le_one {u : ℝ} (hu : 0 ≤ u) : 1 / (1 + p * u) ≤ 1 := by
  rw [div_le_one (one_add_p_mul_pos hu)]
  unfold p; nlinarith

lemma tval_antitone {u v : ℝ} (hu : 0 ≤ u) (huv : u ≤ v) :
    1 / (1 + p * v) ≤ 1 / (1 + p * u) := by
  apply one_div_le_one_div_of_le (one_add_p_mul_pos hu)
  unfold p; nlinarith

lemma yfun_mono {u v : ℝ} (hu : 0 ≤ u) (huv : u ≤ v) : yfun u ≤ yfun v := by
  unfold yfun
  have hv : 0 ≤ v := hu.trans huv
  have h1 : Ppoly (1 / (1 + p * v)) ≤ Ppoly (1 / (1 + p * u)) :=
    strictMono_Ppoly.monotone (tval_antitone hu huv)
  have h2 : 0 ≤ Ppoly (1 / (1 + p * v)) := Ppoly_nonneg (tval_pos hv).le
  have h3 : Real.exp (-(v * v)) ≤ Real.exp (-(u * u)) := by
    apply Real.exp_le_exp.mpr; nlinarith
  have h4 : (0:ℝ) < Real.exp (-(v * v)) := Real.exp_pos _
  have h5 := mul_le_mul h1 h3 h4.le (Ppoly_nonneg (tval_pos hu).le)
  linarith

lemma yfun_zero : yfun 0 = 0.000000001 := by
  unfold yfun
  norm_num [p, Ppoly_one]

lemma yfun_pos {u : ℝ} (hu : 0 ≤ u) : 0 < yfun u :=
  calc (0:ℝ) < 0.000000001 := by norm_num
  _ = yfun 0 := yfun_zero.symm
  _ ≤ yfun u := yfun_mono (le_refl 0) hu

lemma yfun_le_one {u : ℝ} (hu : 0 ≤ u) : yfun u ≤ 1 := by
  unfold yfun
  have h2 : 0 ≤ Ppoly (1 / (1 + p * u)) := Ppoly_nonneg (tval_pos hu).le
  have h4 : (0:ℝ) < Real.exp (-(u * u)) := Real.exp_pos _
  nlinarith

lemma cdf_of_nonneg {x : ℝ} (hx : 0 ≤ x) : cdf x = 0.5 * (1 + yfun x) := by
  simp only [cdf, yfun]
  rw [if_pos hx, abs_of_nonneg hx]
  ring

lemma cdf_of_neg {x : ℝ} (hx : x < 0) : cdf x = 0.5 * (1 - yfun (-x)) := by
  simp only [cdf, yfun]
  rw [if_neg (not_le.mpr hx), abs_of_neg hx]
  ring

lemma cdf_neg_of_pos {x : ℝ} (hx : 0 < x) : cdf (-x) = 1 - cdf x := by
  rw [cdf_of_neg (by linarith : -x < 0), cdf_of_nonneg hx.le, neg_neg]
  ring

lemma cdf_add_cdf_neg_le (x : ℝ) : |cdf x + cdf (-x) - 1| ≤ 0.000000001 := by
  rcases lt_trichotomy x 0 with h | h | h
  · rw [cdf_of_neg h, cdf_of_nonneg (by linarith : (0:ℝ) ≤ -x)]
    have he : 0.5 * (1 - yfun (-x)) + 0.5 * (1 + yfun (-x)) - 1 = 0 := by ring
    rw [he]
    norm_num
  · subst h
    rw [neg_zero, cdf_of_nonneg le_rfl]
    have he : 0.5 * (1 + yfun 0) + 0.5 * (1 + yfun 0) - 1 = yfun 0 := by ring
    rw [he, yfun_zero]
    rw [abs_of_nonneg (by norm_num : (0:ℝ) ≤ 0.000000001)]
  · rw [cdf_of_nonneg h.le, cdf_of_neg (by linarith : -x < 0), neg_neg]
    have he : 0.5 * (1 + yfun x) + 0.5 * (1 - yfun x) - 1 = 0 := by ring
    rw [he]
    norm_num

lemma cdf_in_unit (z : ℝ) : 0 ≤ cdf z ∧ cdf z ≤ 1 := by
  rcases le_or_lt 0 z with h | h
  · rw [cdf_of_nonneg h]
    have h1 := yfun_pos h
    have h2 := yfun_le_one h
    constructor <;> linarith
  · rw [cdf_of_neg h]
    have h1 := yfun_pos (by linarith : (0:ℝ) ≤ -z)
    have h2 := yfun_le_one (by linarith : (0:ℝ) ≤ -z)
    constructor <;> linarith

end CdfFacts

/-- C7: for every real `x`, `cdf x + cdf (-x)` equals `1` within absolute
tolerance `1e-6`.  (The exact defect is `0` for `x ≠ 0` and `1e-9` at
`x = 0`, where both branches take the non-negative sign.) -/
theorem cdf_reflection_within_1e6 (x : ℝ) :
    |cdf x + cdf (-x) - 1| ≤ 0.000001 :=
  le_trans (cdf_add_cdf_neg_le x) (by norm_num)

/-- C8: the source's `cdf` is monotonically non-decreasing. -/
theorem cdf_monotone (x1 x2 : ℝ) (h : x1 ≤ x2) : cdf x1 ≤ cdf x2 := by
  rcases le_or_lt 0 x1 with h1 | h1
  · rw [cdf_of_nonneg h1, cdf_of_nonneg (h1.trans h)]
    have h5 := yfun_mono h1 h
    linarith
  · rcases le_or_lt 0 x2 with h2 | h2
    · rw [cdf_of_neg h1, cdf_of_nonneg h2]
      have ha := yfun_pos (by linarith : (0:ℝ) ≤ -x1)
      have hb := yfun_pos h2
      linarith
    · rw [cdf_of_neg h1, cdf_of_neg h2]
      have h5 := yfun_mono (by linarith : (0:ℝ) ≤ -x2)
        (by linarith : -x2 ≤ -x1)
      linarith

/-- Witness for C8 at the concrete pair `(0, 1)`. -/
theorem cdf_monotone_witness : (0:ℝ) ≤ 1 ∧ cdf 0 ≤ cdf 1 :=
  ⟨by norm_num, cdf_monotone 0 1 (by norm_num)⟩

/-- C10: `cdf` always lands in `[0, 1]`; consequently for every engine
instance `deltaCall` lies in `[0, 1]` and `deltaPut` in `[-1, 0]`. -/
theorem cdf_range (x : ℝ) (b : BlackScholes) :
    0 ≤ cdf x ∧ cdf x ≤ 1 ∧
      0 ≤ b.deltaCall ∧ b.deltaCall ≤ 1 ∧
      -1 ≤ b.deltaPut ∧ b.deltaPut ≤ 0 := by
  unfold BlackScholes.deltaCall BlackScholes.deltaPut
  exact ⟨(cdf_in_unit x).1, (cdf_in_unit x).2,
    (cdf_in_unit b.d1).1, (cdf_in_unit b.d1).2,
    by linarith [(cdf_in_unit b.d1).1], by linarith [(cdf_in_unit b.d1).2]⟩

/-- C4: put-call parity.  For every valid parameter set the difference
`callPrice - putPrice` equals `S - K·exp(-r·T)` up to `1e-4` of the scale
`S + K·exp(-r·T)` of the two legs (the actual defect is at most `1e-9` of
that scale, non-zero only when `d1 = 0` or `d2 = 0`). -/
theorem put_call_parity (S K r T sigma : ℝ) (hS : 0 < S) (hK : 0 < K)
    (hT : 0 < T) (hsig : 0 < sigma) :
    |((BlackScholes.mk S K r T sigma).callPrice -
        (BlackScholes.mk S K r T sigma).putPrice) -
      (S - K * Real.exp (-r * T))| ≤
      0.0001 * (S + K * Real.exp (-r * T)) := by
  have hKE : 0 < K * Real.exp (-r * T) :=
    mul_pos hK (Real.exp_pos _)
  have hb : (BlackScholes.mk S K r T sigma).callPrice -
      (BlackScholes.mk S K r T sigma).putPrice -
      (S - K * Real.exp (-r * T)) =
      S * (cdf (BlackScholes.mk S K r T sigma).d1 +
        cdf (-(BlackScholes.mk S K r T sigma).d1) - 1) -
      K * Real.exp (-r * T) * (cdf (BlackScholes.mk S K r T sigma).d2 +
        cdf (-(BlackScholes.mk S K r T sigma).d2) - 1) := by
    simp only [BlackScholes.callPrice, BlackScholes.putPrice]
    ring
  rw [hb]
  have h1 := cdf_add_cdf_neg_le (BlackScholes.mk S K r T sigma).d1
  have h2 := cdf_add_cdf_neg_le (BlackScholes.mk S K r T sigma).d2
  have habs : |S * (cdf (BlackScholes.mk S K r T sigma).d1 +
        cdf (-(BlackScholes.mk S K r T sigma).d1) - 1) -
      K * Real.exp (-r * T) * (cdf (BlackScholes.mk S K r T sigma).d2 +
        cdf (-(BlackScholes.mk S K r T sigma).d2) - 1)| ≤
      |S * (cdf (BlackScholes.mk S K r T sigma).d1 +
        cdf (-(BlackScholes.mk S K r T sigma).d1) - 1)| +
      |K * Real.exp (-r * T) * (cdf (BlackScholes.mk S K r T sigma).d2 +
        cdf (-(BlackScholes.mk S K r T sigma).d2) - 1)| := by
    rw [sub_eq_add_neg]
    refine (abs_add _ _).trans ?_
    rw [abs_neg]
  refine habs.trans ?_
  rw [abs_mul, abs_mul, abs_of_pos hS, abs_of_pos hKE]
  nlinarith [abs_nonneg (cdf (BlackScholes.mk S K r T sigma).d1 +
      cdf (-(BlackScholes.mk S K r T sigma).d1) - 1),
    abs_nonneg (cdf (BlackScholes.mk S K r T sigma).d2 +
      cdf (-(BlackScholes.mk S K r T sigma).d2) - 1)]

/-- Witness for C4 at `S = 100, K = 100, r = 0.05, T = 1, sigma = 0.2`. -/
theorem put_call_parity_witness :
    (0:ℝ) < 100 ∧ (0:ℝ) < 1 ∧ (0:ℝ) < 0.2 ∧
    |((BlackScholes.mk 100 100 0.05 1 0.2).callPrice -
        (BlackScholes.mk 100 100 0.05 1 0.2).putPrice) -
      (100 - 100 * Real.exp (-(0.05:ℝ) * 1))| ≤
      0.0001 * (100 + 100 * Real.exp (-(0.05:ℝ) * 1)) :=
  ⟨by norm_num, by norm_num, by norm_num,
    put_call_parity 100 100 0.05 1 0.2 (by norm_num) (by norm_num)
      (by norm_num) (by norm_num)⟩

/-- C3: the engine's cached `d1`/`d2` and each pricing operation equal the
spec's closed-form formulas (stated with the spec-derived definitions
`specD1` ... `specRhoCall`). -/
theorem bs_matches_spec (S K r T sigma : ℝ) (hS : 0 < S) (hK : 0 < K)
    (hT : 0 < T) (hsig : 0 < sigma) :
    (BlackScholes.mk S K r T sigma).d1 = specD1 S K r T sigma ∧
    (BlackScholes.mk S K r T sigma).d2 = specD2 S K r T sigma ∧
    (BlackScholes.mk S K r T sigma).callPrice = specCallPrice S K r T sigma ∧
    (BlackScholes.mk S K r T sigma).putPrice = specPutPrice S K r T sigma ∧
    (BlackScholes.mk S K r T sigma).deltaCall = specDeltaCall S K r T sigma ∧
    (BlackScholes.mk S K r T sigma).deltaPut = specDeltaPut S K r T sigma ∧
    (BlackScholes.mk S K r T sigma).gamma = specGamma S K r T sigma ∧
    (BlackScholes.mk S K r T sigma).vega = specVega S K r T sigma ∧
    (BlackScholes.mk S K r T sigma).thetaCall = specThetaCall S K r T sigma ∧
    (BlackScholes.mk S K r T sigma).rhoCall = specRhoCall S K r T sigma := by
  have hexp : Real.exp (-r * T) = Real.exp (-(r * T)) := by norm_num
  refine ⟨rfl, rfl, ?_, ?_, rfl, rfl, rfl, rfl, ?_, ?_⟩
  · simp only [BlackScholes.callPrice, specCallPrice, hexp]
    rfl
  · simp only [BlackScholes.putPrice, specPutPrice, hexp]
    rfl
  · have hd1 : (BlackScholes.mk S K r T sigma).d1 = specD1 S K r T sigma := rfl
    have hd2 : (BlackScholes.mk S K r T sigma).d2 = specD2 S K r T sigma := rfl
    simp only [BlackScholes.thetaCall, specThetaCall, hexp, hd1, hd2]
    ring
  · simp only [BlackScholes.rhoCall, specRhoCall, hexp]
    rfl

/-- Witness for C3 at `S = 100, K = 100, r = 0.05, T = 1, sigma = 0.2`. -/
theorem bs_matches_spec_witness :
    (0:ℝ) < 100 ∧
    ((BlackScholes.mk 100 100 0.05 1 0.2).d1 = specD1 100 100 0.05 1 0.2 ∧
    (BlackScholes.mk 100 100 0.05 1 0.2).d2 = specD2 100 100 0.05 1 0.2 ∧
    (BlackScholes.mk 100 100 0.05 1 0.2).callPrice =
      specCallPrice 100 100 0.05 1 0.2 ∧
    (BlackScholes.mk 100 100 0.05 1 0.2).putPrice =
      specPutPrice 100 100 0.05 1 0.2 ∧
    (BlackScholes.mk 100 100 0.05 1 0.2).deltaCall =
      specDeltaCall 100 100 0.05 1 0.2 ∧
    (BlackScholes.mk 100 100 0.05 1 0.2).deltaPut =
      specDeltaPut 100 100 0.05 1 0.2 ∧
    (BlackScholes.mk 100 100 0.05 1 0.2).gamma =
      specGamma 100 100 0.05 1 0.2 ∧
    (BlackScholes.mk 100 100 0.05 1 0.2).vega =
      specVega 100 100 0.05 1 0.2 ∧
    (BlackScholes.mk 100 100 0.05 1 0.2).thetaCall =
      specThetaCall 100 100 0.05 1 0.2 ∧
    (BlackScholes.mk 100 100 0.05 1 0.2).rhoCall =
      specRhoCall 100 100 0.05 1 0.2) :=
  ⟨by norm_num,
    bs_matches_spec 100 100 0.05 1 0.2 (by norm_num) (by norm_num)
      (by norm_num) (by norm_num)⟩

lemma cdfChecked_eq (x : ℝ) : cdfChecked x = some (cdf x) := by
  simp [cdfChecked, cdf, safeDiv, (one_add_p_mul_pos (abs_nonneg x)).ne']

lemma pdfChecked_eq (x : ℝ) : pdfChecked x = some (pdf x) := by
  have h : Real.sqrt (2 * Real.pi) = 0 → False :=
    fun hc => (Real.sqrt_pos.mpr (by positivity : (0:ℝ) < 2 * Real.pi)).ne'
      hc
  unfold pdfChecked pdf safeDiv
  rw [if_neg h]

/-- C9: under the preconditions `S, K, T, sigma > 0` a point evaluation
performs no division by zero and no logarithm of a non-positive argument
(the guarded evaluator returns `some`), and every one of the ten
PricingResult fields equals the engine's value. -/
theorem eval_no_error (S K r T sigma : ℝ) (hS : 0 < S) (hK : 0 < K)
    (hT : 0 < T) (hsig : 0 < sigma) :
    evalChecked S K r T sigma = some
      ⟨(BlackScholes.mk S K r T sigma).d1,
       (BlackScholes.mk S K r T sigma).d2,
       (BlackScholes.mk S K r T sigma).callPrice,
       (BlackScholes.mk S K r T sigma).putPrice,
       (BlackScholes.mk S K r T sigma).deltaCall,
       (BlackScholes.mk S K r T sigma).deltaPut,
       (BlackScholes.mk S K r T sigma).gamma,
       (BlackScholes.mk S K r T sigma).vega,
       (BlackScholes.mk S K r T sigma).thetaCall,
       (BlackScholes.mk S K r T sigma).rhoCall⟩ := by
  have hK' : K ≠ 0 := hK.ne'
  have hq : ¬(S / K ≤ 0) := not_le.mpr (div_pos hS hK)
  have hsqT : 0 < Real.sqrt T := Real.sqrt_pos.mpr hT
  have hden1 : sigma * Real.sqrt T ≠ 0 := (mul_pos hsig hsqT).ne'
  have hden2 : S * sigma * Real.sqrt T ≠ 0 :=
    (mul_pos (mul_pos hS hsig) hsqT).ne'
  have hden3 : (2:ℝ) * Real.sqrt T ≠ 0 := (mul_pos two_pos hsqT).ne'
  simp [evalChecked, safeDiv, safeLog, cdfChecked_eq, pdfChecked_eq,
    hK', hq, hden1, hden2, hden3,
    BlackScholes.d1, BlackScholes.d2, BlackScholes.callPrice,
    BlackScholes.putPrice, BlackScholes.deltaCall, BlackScholes.deltaPut,
    BlackScholes.gamma, BlackScholes.vega, BlackScholes.thetaCall,
    BlackScholes.rhoCall]

/-- Witness for C9 at `S = 100, K = 100, r = 0.05, T = 1, sigma = 0.2`. -/
theorem eval_no_error_witness :
    (0:ℝ) < 100 ∧
    evalChecked 100 100 0.05 1 0.2 = some
      ⟨(BlackScholes.mk 100 100 0.05 1 0.2).d1,
       (BlackScholes.mk 100 100 0.05 1 0.2).d2,
       (BlackScholes.mk 100 100 0.05 1 0.2).callPrice,
       (BlackScholes.mk 100 100 0.05 1 0.2).putPrice,
       (BlackScholes.mk 100 100 0.05 1 0.2).deltaCall,
       (BlackScholes.mk 100 100 0.05 1 0.2).deltaPut,
       (BlackScholes.mk 100 100 0.05 1 0.2).gamma,
       (BlackScholes.mk 100 100 0.05 1 0.2).vega,
       (BlackScholes.mk 100 100 0.05 1 0.2).thetaCall,
       (BlackScholes.mk 100 100 0.05 1 0.2).rhoCall⟩ :=
  ⟨by norm_num,
    eval_no_error 100 100 0.05 1 0.2 (by norm_num) (by norm_num)
      (by norm_num) (by norm_num)⟩

section SurfaceFacts

lemma surface_x_eq (S K r T sigma : ℝ) :
    (generateSurfaceData S K r T sigma).x =
      (List.range 31).map fun j : ℕ => S * 0.5 + (j:ℝ) * (S / 30) := by
  simp only [generateSurfaceData]
  refine List.map_congr_left fun j _ => ?_
  push_cast
  ring

lemma surface_y_eq (S K r T sigma : ℝ) :
    (generateSurfaceData S K r T sigma).y =
      (List.range 31).map fun i : ℕ => 0.01 + (i:ℝ) * (max (T * 1.5) 1 / 30) := by
  simp only [generateSurfaceData]
  refine List.map_congr_left fun i _ => ?_
  push_cast
  ring

lemma surface_y_last (S K r T sigma : ℝ) :
    (generateSurfaceData S K r T sigma).y.getLast? =
      some (0.01 + max (T * 1.5) 1) := by
  rw [surface_y_eq]
  rw [show (31:ℕ) = 30 + 1 from rfl, List.range_succ, List.map_append]
  simp
  ring

lemma surface_z_eq (S K r T sigma : ℝ) :
    (generateSurfaceData S K r T sigma).z =
      (generateSurfaceData S K r T sigma).y.map fun t =>
        (generateSurfaceData S K r T sigma).x.map fun s =>
          (BlackScholes.mk s K r t sigma).gamma := by
  simp only [generateSurfaceData, List.map_map]
  rfl

end SurfaceFacts

/-- C5 (amended): the time axis has 31 evenly spaced points with step
`max(T·1.5, 1)/30`, whose first point is `0.01` and whose last point is
`0.01 + max(T·1.5, 1)` (the source offsets every sample, including the
last, by `0.01`). -/
theorem surface_time_axis (S K r T sigma : ℝ) :
    (generateSurfaceData S K r T sigma).y =
      (List.range 31).map (fun i : ℕ => 0.01 + (i:ℝ) * (max (T * 1.5) 1 / 30)) ∧
    (generateSurfaceData S K r T sigma).y.length = 31 ∧
    (generateSurfaceData S K r T sigma).y.head? = some 0.01 ∧
    (generateSurfaceData S K r T sigma).y.getLast? =
      some (0.01 + max (T * 1.5) 1) := by
  refine ⟨surface_y_eq S K r T sigma, ?_, ?_, surface_y_last S K r T sigma⟩
  · rw [surface_y_eq]
    simp
  · rw [surface_y_eq, List.head?_map]
    rw [show (31:ℕ) = 30 + 1 from rfl, List.range_succ_eq_map]
    simp

/-- C5 fails as stated: for the valid parameters `S = 100, K = 100,
r = 0.05, T = 1, sigma = 0.2` the last time sample is `1.51`, not the
claimed right endpoint `max(T·1.5, 1) = 1.5`. -/
theorem surface_time_axis_counterexample :
    (generateSurfaceData 100 100 0.05 1 0.2).y.getLast? = some 1.51 ∧
    (1.51 : ℝ) ≠ max ((1:ℝ) * 1.5) 1 := by
  constructor
  · rw [surface_y_last]
    rw [max_eq_left (by norm_num : (1:ℝ) ≤ 1 * 1.5)]
    norm_num
  · rw [max_eq_left (by norm_num : (1:ℝ) ≤ 1 * 1.5)]
    norm_num

/-- C6: the spot axis has 31 evenly spaced values from `S·0.5` to `S·1.5`,
the time axis has 31 values, and `z` is the 31×31 grid whose entry at row
`i`, column `j` is the gamma of a fresh engine evaluation at spot `x[j]`
and maturity `y[i]` with `K`, `r`, `sigma` held fixed (stated as: `z` is
exactly the row-by-row map of gamma over `y` and `x`). -/
theorem surface_grid (S K r T sigma : ℝ) :
    (generateSurfaceData S K r T sigma).x =
      (List.range 31).map (fun j : ℕ => S * 0.5 + (j:ℝ) * (S / 30)) ∧
    (generateSurfaceData S K r T sigma).x.length = 31 ∧
    (generateSurfaceData S K r T sigma).x.head? = some (S * 0.5) ∧
    (generateSurfaceData S K r T sigma).x.getLast? = some (S * 1.5) ∧
    (generateSurfaceData S K r T sigma).y.length = 31 ∧
    (generateSurfaceData S K r T sigma).z =
      (generateSurfaceData S K r T sigma).y.map (fun t =>
        (generateSurfaceData S K r T sigma).x.map (fun s =>
          (BlackScholes.mk s K r t sigma).gamma)) ∧
    (generateSurfaceData S K r T sigma).z.length = 31 ∧
    (generateSurfaceData S K r T sigma).z.map List.length =
      List.replicate 31 31 := by
  refine ⟨surface_x_eq S K r T sigma, ?_, ?_, ?_, ?_,
    surface_z_eq S K r T sigma, ?_, ?_⟩
  · rw [surface_x_eq]
    simp
  · rw [surface_x_eq, List.head?_map]
    rw [show (31:ℕ) = 30 + 1 from rfl, List.range_succ_eq_map]
    simp
  · rw [surface_x_eq]
    rw [show (31:ℕ) = 30 + 1 from rfl, List.range_succ, List.map_append]
    simp
    ring
  · rw [surface_y_eq]
    simp
  · rw [surface_z_eq, surface_y_eq]
    simp
  · rw [surface_z_eq S K r T sigma, List.map_map]
    have hconst : (List.length ∘ fun t : ℝ =>
        (generateSurfaceData S K r T sigma).x.map fun s =>
          (BlackScholes.mk s K r t sigma).gamma) = fun _ : ℝ => (31:ℕ) := by
      funext t
      simp [Function.comp, surface_x_eq S K r T sigma]
    rw [hconst, surface_y_eq S K r T sigma, List.map_map]
    refine List.eq_replicate_iff.mpr ⟨by simp, ?_⟩
    intro n hn
    simp only [List.mem_map, Function.comp] at hn
    obtain ⟨i, _, hi⟩ := hn
    exact hi.symm

section NumericBounds

lemma exp_neg_1225_bounds :
    0.884705 < Real.exp (-0.1225) ∧ Real.exp (-0.1225) < 0.884706 := by
  have habs : |(-0.1225:ℝ)| = 0.1225 := by
    rw [abs_of_nonpos] <;> norm_num
  have h := Real.exp_bound (x := (-0.1225:ℝ)) (by rw [habs]; norm_num)
    (n := 6) (by norm_num)
  rw [habs] at h
  have hs : ∑ i ∈ Finset.range 6, (-0.1225:ℝ) ^ i / i.factorial =
      1087126610326751 / 1228800000000000 := by
    simp [Finset.sum_range_succ, Nat.factorial]
    norm_num
  rw [hs] at h
  obtain ⟨hlo, hhi⟩ := abs_le.mp h
  norm_num [Nat.factorial] at hlo hhi
  constructor <;> linarith

lemma exp_neg_0225_bounds :
    0.977751 < Real.exp (-0.0225) ∧ Real.exp (-0.0225) < 0.977752 := by
  have habs : |(-0.0225:ℝ)| = 0.0225 := by
    rw [abs_of_nonpos] <;> norm_num
  have h := Real.exp_bound (x := (-0.0225:ℝ)) (by rw [habs]; norm_num)
    (n := 6) (by norm_num)
  rw [habs] at h
  have hs : ∑ i ∈ Finset.range 6, (-0.0225:ℝ) ^ i / i.factorial =
      400486906754317 / 409600000000000 := by
    simp [Finset.sum_range_succ, Nat.factorial]
    norm_num
  rw [hs] at h
  obtain ⟨hlo, hhi⟩ := abs_le.mp h
  norm_num [Nat.factorial] at hlo hhi
  constructor <;> linarith

lemma exp_neg_005_bounds :
    0.951229 < Real.exp (-0.05) ∧ Real.exp (-0.05) < 0.951230 := by
  have habs : |(-0.05:ℝ)| = 0.05 := by
    rw [abs_of_nonpos] <;> norm_num
  have h := Real.exp_bound (x := (-0.05:ℝ)) (by rw [habs]; norm_num)
    (n := 6) (by norm_num)
  rw [habs] at h
  have hs : ∑ i ∈ Finset.range 6, (-0.05:ℝ) ^ i / i.factorial =
      365272099 / 384000000 := by
    simp [Finset.sum_range_succ, Nat.factorial]
    norm_num
  rw [hs] at h
  obtain ⟨hlo, hhi⟩ := abs_le.mp h
  norm_num [Nat.factorial] at hlo hhi
  constructor <;> linarith

lemma cdf35_bounds : 0.6896 < cdf 0.35 ∧ cdf 0.35 < 0.6897 := by
  rw [cdf_of_nonneg (by norm_num : (0:ℝ) ≤ 0.35)]
  unfold yfun
  have harg : (-(0.35 * 0.35 : ℝ)) = -0.1225 := by norm_num
  rw [harg]
  have ht : (1:ℝ) / (1 + p * 0.35) = 1 / 1.114656885 := by
    unfold p; norm_num
  rw [ht]
  have htlo : (0.8971370 : ℝ) < 1 / 1.114656885 := by
    rw [lt_div_iff₀ (by norm_num : (0:ℝ) < 1.114656885)]
    norm_num
  have hthi : (1:ℝ) / 1.114656885 < 0.8971371 := by
    rw [div_lt_iff₀ (by norm_num : (0:ℝ) < 1.114656885)]
    norm_num
  have hPlo : (0.7014961 : ℝ) < Ppoly (1 / 1.114656885) :=
    calc (0.7014961 : ℝ) < Ppoly 0.8971370 := by
          unfold Ppoly a1 a2 a3 a4 a5; norm_num
    _ < Ppoly (1 / 1.114656885) := strictMono_Ppoly htlo
  have hPhi : Ppoly (1 / 1.114656885) < 0.7014965 :=
    calc Ppoly (1 / 1.114656885) < Ppoly 0.8971371 := strictMono_Ppoly hthi
    _ < 0.7014965 := by unfold Ppoly a1 a2 a3 a4 a5; norm_num
  have hE := exp_neg_1225_bounds
  have hprod_hi : Ppoly (1 / 1.114656885) * Real.exp (-0.1225) <
      0.7014965 * 0.884706 :=
    mul_lt_mul'' hPhi hE.2 (by linarith) (Real.exp_pos _).le
  have hprod_lo : (0.7014961 : ℝ) * 0.884705 <
      Ppoly (1 / 1.114656885) * Real.exp (-0.1225) :=
    mul_lt_mul'' hPlo hE.1 (by norm_num) (by norm_num)
  constructor <;> nlinarith

lemma cdf15_bounds : 0.5839 < cdf 0.15 ∧ cdf 0.15 < 0.5841 := by
  rw [cdf_of_nonneg (by norm_num : (0:ℝ) ≤ 0.15)]
  unfold yfun
  have harg : (-(0.15 * 0.15 : ℝ)) = -0.0225 := by norm_num
  rw [harg]
  have ht : (1:ℝ) / (1 + p * 0.15) = 1 / 1.049138665 := by
    unfold p; norm_num
  rw [ht]
  have htlo : (0.9531628 : ℝ) < 1 / 1.049138665 := by
    rw [lt_div_iff₀ (by norm_num : (0:ℝ) < 1.049138665)]
    norm_num
  have hthi : (1:ℝ) / 1.049138665 < 0.9531629 := by
    rw [div_lt_iff₀ (by norm_num : (0:ℝ) < 1.049138665)]
    norm_num
  have hPlo : (0.8509362 : ℝ) < Ppoly (1 / 1.049138665) :=
    calc (0.8509362 : ℝ) < Ppoly 0.9531628 := by
          unfold Ppoly a1 a2 a3 a4 a5; norm_num
    _ < Ppoly (1 / 1.049138665) := strictMono_Ppoly htlo
  have hPhi : Ppoly (1 / 1.049138665) < 0.8509366 :=
    calc Ppoly (1 / 1.049138665) < Ppoly 0.9531629 := strictMono_Ppoly hthi
    _ < 0.8509366 := by unfold Ppoly a1 a2 a3 a4 a5; norm_num
  have hE := exp_neg_0225_bounds
  have hprod_hi : Ppoly (1 / 1.049138665) * Real.exp (-0.0225) <
      0.8509366 * 0.977752 :=
    mul_lt_mul'' hPhi hE.2 (by linarith) (Real.exp_pos _).le
  have hprod_lo : (0.8509362 : ℝ) * 0.977751 <
      Ppoly (1 / 1.049138665) * Real.exp (-0.0225) :=
    mul_lt_mul'' hPlo hE.1 (by norm_num) (by norm_num)
  constructor <;> nlinarith

end NumericBounds

/-- C2 fails on the code: at `S=100, K=100, r=0.05, T=1, sigma=0.2` the
engine does produce `d1 = 0.35` and `d2 = 0.15`, but `deltaCall` exceeds
`0.68` (the claim says `about 0.6368`), `callPrice` exceeds `13` (the
claim says `about 10.45`) and `putPrice` exceeds `8` (the claim says
`about 5.57`): the source's `cdf` evaluates the Abramowitz-Stegun erf
polynomial at `x` itself instead of `x / sqrt 2`, so it computes
`0.5·(1 + erf x)`, not the standard normal CDF. -/
theorem scenario_divergence :
    (BlackScholes.mk 100 100 0.05 1 0.2).d1 = 0.35 ∧
    (BlackScholes.mk 100 100 0.05 1 0.2).d2 = 0.15 ∧
    0.68 < (BlackScholes.mk 100 100 0.05 1 0.2).deltaCall ∧
    13 < (BlackScholes.mk 100 100 0.05 1 0.2).callPrice ∧
    8 < (BlackScholes.mk 100 100 0.05 1 0.2).putPrice := by
  have hd1 : (BlackScholes.mk 100 100 0.05 1 0.2).d1 = 0.35 := by
    unfold BlackScholes.d1
    norm_num [Real.log_one, Real.sqrt_one]
  have hd2 : (BlackScholes.mk 100 100 0.05 1 0.2).d2 = 0.15 := by
    unfold BlackScholes.d2
    rw [hd1]
    norm_num [Real.sqrt_one]
  have hc35 := cdf35_bounds
  have hc15 := cdf15_bounds
  have hE3 := exp_neg_005_bounds
  have hrT : (-(0.05:ℝ) * 1) = -0.05 := by norm_num
  refine ⟨hd1, hd2, ?_, ?_, ?_⟩
  · unfold BlackScholes.deltaCall
    rw [hd1]
    linarith [hc35.1]
  · unfold BlackScholes.callPrice
    rw [hd1, hd2, hrT]
    have hprod : Real.exp (-0.05) * cdf 0.15 < 0.951230 * 0.5841 :=
      mul_lt_mul'' hE3.2 hc15.2 (Real.exp_pos _).le
        (cdf_in_unit 0.15).1
    nlinarith [hc35.1]
  · unfold BlackScholes.putPrice
    rw [hd1, hd2, hrT]
    rw [cdf_neg_of_pos (by norm_num : (0:ℝ) < 0.15),
      cdf_neg_of_pos (by norm_num : (0:ℝ) < 0.35)]
    have h15 : (0.4159:ℝ) < 1 - cdf 0.15 := by linarith [hc15.2]
    have hprod : (0.951229:ℝ) * 0.4159 < Real.exp (-0.05) * (1 - cdf 0.15) :=
      mul_lt_mul'' hE3.1 h15 (by norm_num) (by norm_num)
    nlinarith [hc35.1]

section PhiFacts

lemma continuous_pdf : Continuous pdf := by
  unfold pdf
  fun_prop

lemma integrable_pdf : MeasureTheory.Integrable pdf := by
  have h : MeasureTheory.Integrable fun x : ℝ => Real.exp (-0.5 * x ^ 2) :=
    integrable_exp_neg_mul_sq (by norm_num)
  have h2 := h.div_const (Real.sqrt (2 * Real.pi))
  have hfun : pdf = fun x : ℝ =>
      Real.exp (-0.5 * x ^ 2) / Real.sqrt (2 * Real.pi) := by
    funext x
    unfold pdf
    congr 1
    congr 1
    ring
  rw [hfun]
  exact h2

lemma Phi_zero : Phi 0 = 1 / 2 := by
  unfold Phi pdf
  rw [MeasureTheory.integral_div]
  have h1 : (∫ t in Set.Iic (0:ℝ), Real.exp (-0.5 * t * t)) =
      ∫ x in Set.Ioi (0:ℝ), Real.exp (-(0.5:ℝ) * x ^ 2) := by
    have h := integral_comp_neg_Iic (0:ℝ)
      (fun x => Real.exp (-(0.5:ℝ) * x ^ 2))
    rw [neg_zero] at h
    rw [← h]
    congr 1
    funext t
    congr 1
    ring
  rw [h1, integral_gaussian_Ioi]
  have h2 : Real.pi / (0.5:ℝ) = 2 * Real.pi := by ring
  rw [h2]
  have h3 : Real.sqrt (2 * Real.pi) ≠ 0 :=
    (Real.sqrt_pos.mpr (by positivity)).ne'
  field_simp
  ring

lemma sqrt_two_pi_gt : (2.5066:ℝ) < Real.sqrt (2 * Real.pi) := by
  rw [show (2.5066:ℝ) = Real.sqrt (2.5066 ^ 2) from
    (Real.sqrt_sq (by norm_num)).symm]
  apply Real.sqrt_lt_sqrt (by norm_num)
  nlinarith [Real.pi_gt_d6]

lemma Phi_035_lt : Phi 0.35 < 0.64 := by
  have hsub : Phi 0.35 - Phi 0 = ∫ t in (0:ℝ)..0.35, pdf t := by
    unfold Phi
    exact intervalIntegral.integral_Iic_sub_Iic
      integrable_pdf.integrableOn integrable_pdf.integrableOn
  have hmono : (∫ t in (0:ℝ)..0.35, pdf t) ≤
      ∫ _t in (0:ℝ)..0.35, (1 / Real.sqrt (2 * Real.pi)) := by
    apply intervalIntegral.integral_mono_on (by norm_num)
    · exact continuous_pdf.intervalIntegrable 0 0.35
    · exact intervalIntegrable_const
    · intro x _hx
      unfold pdf
      gcongr
      exact Real.exp_le_one_iff.mpr (by nlinarith [mul_self_nonneg x])
  have hconst : (∫ _t in (0:ℝ)..0.35, (1 / Real.sqrt (2 * Real.pi))) =
      0.35 * (1 / Real.sqrt (2 * Real.pi)) := by
    rw [intervalIntegral.integral_const, smul_eq_mul]
    norm_num
  have hdiv : 0.35 * (1 / Real.sqrt (2 * Real.pi)) < 0.35 * (1 / 2.5066) := by
    have h1 : 1 / Real.sqrt (2 * Real.pi) < 1 / 2.5066 :=
      one_div_lt_one_div_of_lt (by norm_num) sqrt_two_pi_gt
    nlinarith
  have h0 := Phi_zero
  have heq : Phi 0.35 = Phi 0 + ∫ t in (0:ℝ)..0.35, pdf t := by linarith
  rw [heq, h0]
  have hnum : (0.35:ℝ) * (1 / 2.5066) < 0.14 := by norm_num
  linarith

end PhiFacts

/-- C1 fails on the code: at `x = 0.35` the source's `cdf` differs from the
true standard normal CDF `Phi` by more than `0.049`, far above the claimed
`1.5e-7` bound.  (`cdf` evaluates the Abramowitz-Stegun erf polynomial at
`x` rather than at `x / sqrt 2`, so `cdf x` is about `0.5·(1 + erf x)`,
i.e. `Phi (x·√2)`, not `Phi x`.) -/
theorem cdf_far_from_Phi :
    Phi 0.35 < 0.64 ∧ 0.689 < cdf 0.35 ∧
    0.00000015 < |cdf 0.35 - Phi 0.35| := by
  have h1 := Phi_035_lt
  have h2 := cdf35_bounds.1
  refine ⟨h1, by linarith, ?_⟩
  have h3 := le_abs_self (cdf 0.35 - Phi 0.35)
  linarith

end BS
